import Mathlib

/-!
Verification of the SumChat real-time engagement pipeline
(`bridge/eeg_ws_bridge.py`, `engagement_streaming.py`).

Python floats carrying `math.inf` / `-math.inf` are modelled by `EReal`
(extended reals); finite float values are modelled by `ℝ`.  NaN never arises
on the code paths considered.  Sample values and timestamps are modelled by
`ℝ` or `ℚ`; sample counts and buffer contents by `ℕ` and `List`.
-/

open scoped BigOperators

noncomputable section

/-! ## Normalizer (`NormState`, `eeg_ws_bridge.py` lines 77-90 and 245-249) -/

/-- The running min/max state of the engagement normalizer.
`Emin` starts at `math.inf` (`⊤`), `Emax` at `-math.inf` (`⊥`). -/
structure NormState where
  Emin : EReal
  Emax : EReal

/-- The state at construction time: `Emin = math.inf`, `Emax = -math.inf`. -/
def NormState.init : NormState := ⟨⊤, ⊥⟩

/-- `NormState.update` (lines 82-86): two independent comparisons,
`if value < self.Emin: self.Emin = value` and
`if value > self.Emax: self.Emax = value`. -/
def NormState.update (s : NormState) (value : ℝ) : NormState :=
  ⟨if (value : EReal) < s.Emin then (value : EReal) else s.Emin,
   if (value : EReal) > s.Emax then (value : EReal) else s.Emax⟩

/-- `NormState.reset` (lines 88-90): both bounds return to the
uninitialized values. -/
def NormState.reset (_s : NormState) : NormState := ⟨⊤, ⊥⟩

/-- Folding a whole sequence of observed engagement values through
`NormState.update`, starting from the uninitialized state. -/
def observeAll (l : List ℝ) : NormState :=
  l.foldl NormState.update NormState.init

/-- `max(0.0, min(1.0, x))` (line 249). -/
def clamp01 (x : ℝ) : ℝ := max 0 (min 1 x)

/-- Normalization step of `_stream_loop` (lines 245-249): when
`Emax > Emin` return the clamped affine ratio, else the midpoint `0.5`,
and the clamp is applied to the result of either branch.  In the ratio
branch the stored bounds are read back as real numbers via `EReal.toReal`
(on every state the bridge can reach in that branch both bounds are finite,
so `toReal` is exact). -/
def NormState.normalize (s : NormState) (E : ℝ) : ℝ :=
  clamp01 (if s.Emin < s.Emax then
    (E - s.Emin.toReal) / (s.Emax.toReal - s.Emin.toReal) else 1 / 2)

/-- `EEGBridge._finite_or_none` (lines 283-284): `math.isfinite` is false
exactly on the two infinities in our model. -/
def finite_or_none (v : EReal) : Option ℝ :=
  if v = ⊤ ∨ v = ⊥ then none else some v.toReal

/-! ## Gate scheduler (`eeg_ws_bridge.py` lines 240, 268-269) -/

/-- `GATE_STRIDE = 256` (line 74). -/
def GATE_STRIDE : ℕ := 256

/-- The `while next_gate <= global_idx: next_gate += GATE_STRIDE` loop
(lines 268-269). -/
def advanceGate (global_idx g : ℕ) : ℕ :=
  if g ≤ global_idx then advanceGate global_idx (g + GATE_STRIDE) else g
termination_by global_idx + 1 - g
decreasing_by simp [GATE_STRIDE]; omega

/-- One pass over the gate block (lines 240-269), with the spectral work
abstracted away: `ready` stands for `buf.shape[0] >= win_len and
buf.shape[1] > 0`.  Returns how many evaluations fired (0 or 1) and the new
`next_gate`. -/
def gateStep (global_idx next_gate : ℕ) (ready : Bool) : ℕ × ℕ :=
  if next_gate ≤ global_idx ∧ ready = true then
    (1, advanceGate global_idx next_gate)
  else
    (0, next_gate)

/-! ## Acquisition scheduler (`eeg_ws_bridge.py` lines 236-238) -/

/-- `EEG_PULL_PERIOD_S = 0.200` (line 72), exact as a rational. -/
def EEG_PULL_PERIOD_S : ℚ := 1 / 5

/-- Lines 236-238: `next_pull += EEG_PULL_PERIOD_S` followed by
`if now - next_pull > EEG_PULL_PERIOD_S: next_pull = now`. -/
def schedulePull (now next_pull : ℚ) : ℚ :=
  let advanced := next_pull + EEG_PULL_PERIOD_S
  if now - advanced > EEG_PULL_PERIOD_S then now else advanced

/-! ## Window buffer (`eeg_ws_bridge.py` lines 229-235) -/

/-- Python's `l[-k:]`: the most recent `k` entries (all of them when
`k ≥ length`). -/
def takeLast {α : Type} (k : ℕ) (l : List α) : List α :=
  l.drop (l.length - k)

/-- `keep = max(win_len * 2, win_len + int(fs))` (line 234). -/
def keepBound (win_len fs : ℕ) : ℕ := max (win_len * 2) (win_len + fs)

/-- The buffer-append block (lines 229-235), rows modelled as abstract
elements: when the pulled block `X` is non-empty, an empty buffer becomes
`X[-win_len:]` if `n ≥ win_len` else `X`, and a non-empty buffer becomes
`vstack((buf, X))[-keep:]`. -/
def appendBlock {α : Type} (win_len fs : ℕ) (buf X : List α) : List α :=
  if X.length = 0 then buf
  else if buf.length = 0 then
    (if win_len ≤ X.length then takeLast win_len X else X)
  else
    takeLast (keepBound win_len fs) (buf ++ X)

/-! ## Broadcast hub (`eeg_ws_bridge.py` lines 196-209) -/

/-- A connected WebSocket client: an identity, and whether `ws.send`
succeeds for it.  `sendOk = false` models a send that raises. -/
structure Client where
  id : ℕ
  sendOk : Bool
deriving DecidableEq

/-- The hub's state: the subscriber set (`self.clients`, modelled as a
list), plus logs of which client ids received the payload and which
connections were closed. -/
structure HubState where
  subs : List Client
  received : List ℕ
  closed : List ℕ
deriving DecidableEq

/-- `EEGBridge._safe_send` (lines 202-209): a successful send delivers the
payload; a failing send is caught locally, the connection closed and the
client discarded from the set.  The result type shows that no exception
escapes to the caller. -/
def safeSend (st : HubState) (c : Client) : HubState :=
  if c.sendOk then { st with received := st.received ++ [c.id] }
  else { st with subs := st.subs.erase c, closed := st.closed ++ [c.id] }

/-- `EEGBridge._broadcast` (lines 196-200): return early on an empty set,
else send to every client of a snapshot of the set (`list(self.clients)`).
The concurrent `asyncio.gather` is modelled by a sequential fold; the
sends are independent, so the order does not affect the result. -/
def broadcast (st : HubState) : HubState :=
  if st.subs = [] then st else st.subs.foldl safeSend st

/-! ## Control protocol (`eeg_ws_bridge.py` lines 167-194) -/

/-- A decoded JSON object, reduced to the two keys the handler reads:
`payload.get("type")` and `payload.get("mode")`. -/
structure Payload where
  type : Option String
  mode : Option String
deriving DecidableEq

/-- An inbound WebSocket frame as `_handler`'s loop body sees it:
a binary frame whose bytes are not valid UTF-8 (`json.loads` raises
`UnicodeDecodeError`); text that fails `json.loads` with
`JSONDecodeError` (the only exception the handler catches); text that
parses to a JSON value that is not an object, such as `5`, `null` or
`[1]` (`payload.get` then raises `AttributeError`); or text that parses
to a JSON object, reduced to the keys the handler reads. -/
inductive InMsg
  | binaryNotUtf8
  | textNotJson
  | jsonNonObject
  | jsonObject (p : Payload)

/-- The uncaught exceptions that can escape one iteration of the handler
loop; the surrounding server then tears the handler task down and the
`finally` block discards the client, dropping the connection. -/
inductive HandlerErr
  | unicodeDecodeError
  | attributeError
deriving DecidableEq

/-- The shared state the handler can mutate: `self.mode` and `self.norm`. -/
structure Shared where
  mode : String
  norm : NormState

/-- Outbound messages the handler can broadcast. -/
inductive OutMsg
  | calibrationMode (mode : String)
  | calibrationBounds (mode : String) (Emin Emax : Option ℝ)

/-- The valid mode strings of line 182. -/
def MODES : List String := ["normal", "relax", "mental"]

/-- One iteration of the `async for message in ws` body of
`EEGBridge._handler` (lines 171-192): returns the new shared state and
the broadcasts it triggered, or the uncaught exception that escapes the
iteration.  A `JSONDecodeError` is caught (`continue`, no effect) and
unknown kinds fall through with no effect, but an invalid-UTF-8 binary
frame raises `UnicodeDecodeError` and a parseable non-object JSON value
raises `AttributeError` at `payload.get("type")`; neither is caught by
`except json.JSONDecodeError`, so both crash the handler and the
connection is dropped.  `set_mode` only acts on a valid mode string. -/
def handle (st : Shared) (m : InMsg) :
    Except HandlerErr (Shared × List OutMsg) :=
  match m with
  | .binaryNotUtf8 => Except.error HandlerErr.unicodeDecodeError
  | .textNotJson => Except.ok (st, [])
  | .jsonNonObject => Except.error HandlerErr.attributeError
  | .jsonObject p =>
    Except.ok <|
      if p.type = some "subscribe" then (st, [])
      else
        let step1 : Shared × List OutMsg :=
          if p.type = some "set_mode" then
            match p.mode with
            | some md =>
              if md ∈ MODES then
                ({ st with mode := md }, [.calibrationMode md])
              else (st, [])
            | none => (st, [])
          else (st, [])
        if p.type = some "reset_norm" then
          let st2 := { step1.1 with norm := step1.1.norm.reset }
          (st2, step1.2 ++ [.calibrationBounds st2.mode
            (finite_or_none st2.norm.Emin) (finite_or_none st2.norm.Emax)])
        else step1

/-! ## Normalization-state persistence (`engagement_streaming.py`
lines 24-36 and 142-149) -/

/-- `load_norm_state` (lines 24-30).  The argument models the outcome of
`open` + `json.load`: `none` is any failure (missing file, unreadable,
malformed JSON — the bare `except Exception` branch), `some (a, b)` a
parsed object whose `"Emin"` / `"Emax"` keys may be absent, in which case
`d.get` supplies `inf` / `-inf`. -/
def load_norm_state (parsed : Option (Option ℝ × Option ℝ)) : EReal × EReal :=
  match parsed with
  | none => (⊤, ⊥)
  | some (a, b) =>
    (a.elim ⊤ (fun x => (x : EReal)), b.elim ⊥ (fun x => (x : EReal)))

/-- The min/max-update-and-persist block of `run_engagement`
(lines 142-149): update `Emin`/`Emax` from the computed `E`; if either
bound changed, call `save_norm_state`, whose success is modelled by
`saveOk`.  A failing save raises and nothing in `run_engagement` catches
it, so the iteration aborts: `Except.error ()`. -/
def stepNorm (Emin Emax : EReal) (E : ℝ) (saveOk : Bool) :
    Except Unit (EReal × EReal) :=
  let Emin' := if (E : EReal) < Emin then (E : EReal) else Emin
  let Emax' := if (E : EReal) > Emax then (E : EReal) else Emax
  if (E : EReal) < Emin ∨ (E : EReal) > Emax then
    (if saveOk then Except.ok (Emin', Emax') else Except.error ())
  else Except.ok (Emin', Emax')

/-! ## Spectral engine (`eeg_ws_bridge.py` lines 117-149)

`np.hanning`, `np.fft.rfft`, `np.fft.rfftfreq` and `np.trapz` are modelled
by `hanning`, `rfftBin`, `rfreq` and `trapz` over exact reals. -/

/-- `np.hanning(n)[k]`: the symmetric Hann window,
`0.5 - 0.5*cos(2*pi*k/(n-1))`, with `np.hanning(1) = [1.0]`. -/
def hanning (n k : ℕ) : ℝ :=
  if n = 1 then 1 else 1 / 2 - 1 / 2 * Real.cos (2 * Real.pi * k / (n - 1))

/-- Bin `k` of `np.fft.rfft` of the length-`n` signal `d`:
`∑_j d_j · exp(-2πi·j·k/n)`. -/
def rfftBin (n : ℕ) (d : ℕ → ℝ) (k : ℕ) : ℂ :=
  ∑ j ∈ Finset.range n,
    (d j : ℂ) * Complex.exp (-(2 * (Real.pi : ℂ) * Complex.I * j * k) / n)

/-- `np.fft.rfftfreq(n, d=1/fs)[k] = k·fs/n`. -/
def rfreq (n : ℕ) (fs : ℝ) (k : ℕ) : ℝ := k * fs / n

/-- `np.trapz(ys, xs)` on the list of `(x, y)` points:
`∑ (x_{i+1}-x_i)·(y_i+y_{i+1})/2`; zero on fewer than two points. -/
def trapz : List (ℝ × ℝ) → ℝ
  | [] => 0
  | [_] => 0
  | a :: b :: t => (b.1 - a.1) * (a.2 + b.2) / 2 + trapz (b :: t)

/-- `bandpower_hann_rfft` (lines 117-129): remove the mean, multiply by
the Hann window, take the real FFT over the `n/2 + 1` non-negative
frequency bins, form the PSD as `|spectrum|² / (Σ window² · fs)`, keep the
bins with `f_lo ≤ f < f_hi`, return `0` if none remain (`not np.any(mask)`)
and otherwise the trapezoidal integral over the kept bins. -/
def bandpower_hann_rfft (x : List ℝ) (fs f_lo f_hi : ℝ) : ℝ :=
  let n := x.length
  if n = 0 then 0
  else
    let demeaned := fun j => (x.getD j 0 - x.sum / n) * hanning n j
    let psd := fun k => Complex.abs (rfftBin n demeaned k) ^ 2 /
      ((∑ j ∈ Finset.range n, hanning n j ^ 2) * fs)
    let mask := (List.range (n / 2 + 1)).filter
      (fun k => decide (f_lo ≤ rfreq n fs k ∧ rfreq n fs k < f_hi))
    if mask = [] then 0
    else trapz (mask.map (fun k => (rfreq n fs k, psd k)))

/-- `engagement_from_window` (lines 132-149).  The window is modelled
channel-major: `win` is the list of the `C` channel signals, each of
length `n`; `win.size == 0` is `(win.map List.length).sum = 0`.  Per-band
powers are accumulated over the channels and divided by `C`, and
`E = beta / (alpha + theta)` when the denominator exceeds `1e-12`,
else `0`. -/
def engagement_from_window (win : List (List ℝ)) (fs : ℝ) :
    ℝ × ℝ × ℝ × ℝ :=
  if (win.map List.length).sum = 0 then (0, 0, 0, 0)
  else
    let C : ℝ := win.length
    let theta_p :=
      (win.foldl (fun acc sig => acc + bandpower_hann_rfft sig fs 4 7) 0) / C
    let alpha_p :=
      (win.foldl (fun acc sig => acc + bandpower_hann_rfft sig fs 7 11) 0) / C
    let beta_p :=
      (win.foldl (fun acc sig => acc + bandpower_hann_rfft sig fs 11 20) 0) / C
    let denom := alpha_p + theta_p
    (if denom > 1 / 10 ^ 12 then beta_p / denom else 0, alpha_p, theta_p, beta_p)

/-- Modelled from the spec's words (§4.3 SpectralEngine contract), for
comparison with the source definition: per channel remove the mean, apply
a Hann window, take a real DFT, form the PSD as `|spectrum|²/(Σw²·fs)`,
integrate by the trapezoidal rule over the bins in `[lo, hi)`. -/
def bandPowerSpec (sig : List ℝ) (fs lo hi : ℝ) : ℝ :=
  let n := sig.length
  let demeaned := fun j => (sig.getD j 0 - sig.sum / n) * hanning n j
  let density := fun k => Complex.abs (rfftBin n demeaned k) ^ 2 /
    ((∑ j ∈ Finset.range n, hanning n j ^ 2) * fs)
  trapz ((((List.range (n / 2 + 1)).filter
    (fun k => decide (lo ≤ rfreq n fs k ∧ rfreq n fs k < hi)))).map
    (fun k => (rfreq n fs k, density k)))

/-- Modelled from the spec's words (§4.3): band powers for theta 4–7 Hz,
alpha 7–11 Hz, beta 11–20 Hz averaged across channels,
`E = beta/(alpha+theta)` when the denominator exceeds `1e-12` else `0`,
and all-zero outputs on an empty window. -/
def SpectralEngineCompute (win : List (List ℝ)) (fs : ℝ) :
    ℝ × ℝ × ℝ × ℝ :=
  if (win.map List.length).sum = 0 then (0, 0, 0, 0)
  else
    let C : ℝ := win.length
    let theta := (win.map (fun sig => bandPowerSpec sig fs 4 7)).sum / C
    let alpha := (win.map (fun sig => bandPowerSpec sig fs 7 11)).sum / C
    let beta := (win.map (fun sig => bandPowerSpec sig fs 11 20)).sum / C
    (if alpha + theta > 1 / 10 ^ 12 then beta / (alpha + theta) else 0,
     alpha, theta, beta)

end

/-! ## Helper lemmas -/

lemma clamp01_nonneg (x : ℝ) : 0 ≤ clamp01 x := le_max_left 0 _

lemma clamp01_le_one (x : ℝ) : clamp01 x ≤ 1 :=
  max_le zero_le_one (min_le_left 1 x)

/-! ## Claim theorems -/

/-- Claim C2: when `Emax > Emin` (both finite reals, the only states the
bridge reaches in that branch), `normalize` is the clamped affine ratio,
sending `Emin` to `0` and `Emax` to `1`; every output lies in `[0, 1]`;
and on equal or uninitialized bounds (fresh state, or any state after
`reset`) the result is exactly `0.5`. -/
theorem normalize_meets_spec (a b E : ℝ) (hab : a < b) :
    NormState.normalize ⟨(a : EReal), (b : EReal)⟩ E
      = clamp01 ((E - a) / (b - a))
  ∧ NormState.normalize ⟨(a : EReal), (b : EReal)⟩ a = 0
  ∧ NormState.normalize ⟨(a : EReal), (b : EReal)⟩ b = 1
  ∧ (∀ (s : NormState) (x : ℝ),
      0 ≤ s.normalize x ∧ s.normalize x ≤ 1)
  ∧ (∀ x : ℝ, NormState.init.normalize x = 1 / 2)
  ∧ (∀ (s : NormState) (x : ℝ), (s.reset).normalize x = 1 / 2)
  ∧ (∀ c x : ℝ, NormState.normalize ⟨(c : EReal), (c : EReal)⟩ x = 1 / 2) := by
  have hlt : ((a : EReal) : EReal) < (b : EReal) := by
    exact_mod_cast hab
  have hbranch : ∀ x : ℝ, NormState.normalize ⟨(a : EReal), (b : EReal)⟩ x
      = clamp01 ((x - a) / (b - a)) := by
    intro x
    simp [NormState.normalize, hlt]
  refine ⟨hbranch E, ?_, ?_, ?_, ?_, ?_, ?_⟩
  · rw [hbranch a]
    simp [clamp01]
  · rw [hbranch b]
    rw [div_self (by linarith : b - a ≠ 0)]
    simp [clamp01]
  · exact fun s x => ⟨clamp01_nonneg _, clamp01_le_one _⟩
  · intro x
    simp [NormState.normalize, NormState.init, clamp01]
    norm_num
  · intro s x
    simp [NormState.normalize, NormState.reset, clamp01]
    norm_num
  · intro c x
    simp [NormState.normalize, clamp01]
    norm_num

/-- Witness for C2 at `Emin = 0`, `Emax = 1`, `E = 1`. -/
theorem normalize_meets_spec_witness :
    NormState.normalize ⟨((0 : ℝ) : EReal), ((1 : ℝ) : EReal)⟩ 1 = 1 :=
  (normalize_meets_spec 0 1 1 (by norm_num)).2.2.1

lemma update_Emin (s : NormState) (v : ℝ) :
    (s.update v).Emin = min ((v : EReal)) s.Emin := by
  by_cases h : (v : EReal) < s.Emin
  · simp [NormState.update, h, min_eq_left h.le]
  · simp [NormState.update, h, min_eq_right (not_lt.mp h)]

lemma update_Emax (s : NormState) (v : ℝ) :
    (s.update v).Emax = max ((v : EReal)) s.Emax := by
  by_cases h : s.Emax < (v : EReal)
  · simp [NormState.update, h, max_eq_left h.le]
  · simp [NormState.update, h, max_eq_right (not_lt.mp h)]

lemma observe_fold_Emin :
    ∀ (l : List ℝ) (s : NormState),
      (l.foldl NormState.update s).Emin
        = l.foldl (fun a (v : ℝ) => min a (Real.toEReal v)) s.Emin
  | [], _ => rfl
  | v :: t, s => by
    rw [List.foldl_cons, List.foldl_cons, observe_fold_Emin t, update_Emin,
      min_comm]

lemma observe_fold_Emax :
    ∀ (l : List ℝ) (s : NormState),
      (l.foldl NormState.update s).Emax
        = l.foldl (fun a (v : ℝ) => max a (Real.toEReal v)) s.Emax
  | [], _ => rfl
  | v :: t, s => by
    rw [List.foldl_cons, List.foldl_cons, observe_fold_Emax t, update_Emax,
      max_comm]

lemma foldl_min_le :
    ∀ (l : List ℝ) (a : EReal),
      (l.foldl (fun x (v : ℝ) => min x (Real.toEReal v)) a) ≤ a
    ∧ ∀ v ∈ l, (l.foldl (fun x (v : ℝ) => min x (Real.toEReal v)) a) ≤ (v : EReal)
  | [], a => ⟨le_refl a, by simp⟩
  | v :: t, a => by
    obtain ⟨h1, h2⟩ := foldl_min_le t (min a (v : EReal))
    refine ⟨h1.trans (min_le_left _ _), ?_⟩
    intro w hw
    rcases List.mem_cons.mp hw with hw | hw
    · subst hw
      rw [List.foldl_cons]
      exact h1.trans (min_le_right _ _)
    · exact h2 w hw

lemma foldl_max_ge :
    ∀ (l : List ℝ) (a : EReal),
      a ≤ (l.foldl (fun x (v : ℝ) => max x (Real.toEReal v)) a)
    ∧ ∀ v ∈ l, (v : EReal) ≤ (l.foldl (fun x (v : ℝ) => max x (Real.toEReal v)) a)
  | [], a => ⟨le_refl a, by simp⟩
  | v :: t, a => by
    obtain ⟨h1, h2⟩ := foldl_max_ge t (max a (v : EReal))
    refine ⟨(le_max_left _ _).trans h1, ?_⟩
    intro w hw
    rcases List.mem_cons.mp hw with hw | hw
    · subst hw
      rw [List.foldl_cons]
      exact (le_max_right _ _).trans h1
    · exact h2 w hw

lemma foldl_min_attained :
    ∀ (l : List ℝ) (a : EReal),
      (l.foldl (fun x (v : ℝ) => min x (Real.toEReal v)) a) = a
    ∨ ∃ v ∈ l, (l.foldl (fun x (v : ℝ) => min x (Real.toEReal v)) a) = (v : EReal)
  | [], a => Or.inl rfl
  | v :: t, a => by
    rw [List.foldl_cons]
    rcases foldl_min_attained t (min a (v : EReal)) with h | ⟨w, hw, h⟩
    · rcases min_cases a ((v : EReal)) with ⟨e, _⟩ | ⟨e, _⟩
      · exact Or.inl (by rw [h, e])
      · exact Or.inr ⟨v, List.mem_cons_self v t, by rw [h, e]⟩
    · exact Or.inr ⟨w, List.mem_cons_of_mem v hw, h⟩

lemma foldl_max_attained :
    ∀ (l : List ℝ) (a : EReal),
      (l.foldl (fun x (v : ℝ) => max x (Real.toEReal v)) a) = a
    ∨ ∃ v ∈ l, (l.foldl (fun x (v : ℝ) => max x (Real.toEReal v)) a) = (v : EReal)
  | [], a => Or.inl rfl
  | v :: t, a => by
    rw [List.foldl_cons]
    rcases foldl_max_attained t (max a (v : EReal)) with h | ⟨w, hw, h⟩
    · rcases max_cases a ((v : EReal)) with ⟨e, _⟩ | ⟨e, _⟩
      · exact Or.inl (by rw [h, e])
      · exact Or.inr ⟨v, List.mem_cons_self v t, by rw [h, e]⟩
    · exact Or.inr ⟨w, List.mem_cons_of_mem v hw, h⟩

/-- Claim C3: starting from the uninitialized state, after any finite
sequence of observations `Emin` is the minimum and `Emax` the maximum of
the observed values (a lower/upper bound that is attained); a single
`update` can only decrease `Emin` and only increase `Emax`; and `reset`
restores the uninitialized state `(+∞, -∞)`. -/
theorem observe_monotone_minmax (l : List ℝ) (hl : l ≠ []) :
    (∀ v ∈ l, (observeAll l).Emin ≤ (v : EReal)
      ∧ (v : EReal) ≤ (observeAll l).Emax)
  ∧ (∃ v ∈ l, (observeAll l).Emin = (v : EReal))
  ∧ (∃ v ∈ l, (observeAll l).Emax = (v : EReal))
  ∧ (∀ (s : NormState) (x : ℝ),
      (s.update x).Emin ≤ s.Emin ∧ s.Emax ≤ (s.update x).Emax)
  ∧ (∀ s : NormState, s.reset = NormState.init)
  ∧ NormState.init.Emin = ⊤ ∧ NormState.init.Emax = ⊥ := by
  obtain ⟨w, hw⟩ := List.exists_mem_of_ne_nil l hl
  have hminf := observe_fold_Emin l NormState.init
  have hmaxf := observe_fold_Emax l NormState.init
  refine ⟨?_, ?_, ?_, ?_, fun _ => rfl, rfl, rfl⟩
  · intro v hv
    constructor
    · rw [observeAll, hminf]
      exact (foldl_min_le l _).2 v hv
    · rw [observeAll, hmaxf]
      exact (foldl_max_ge l _).2 v hv
  · rcases foldl_min_attained l NormState.init.Emin with h | ⟨v, hv, h⟩
    · exfalso
      have hle := (foldl_min_le l NormState.init.Emin).2 w hw
      rw [h] at hle
      simp [NormState.init] at hle
    · exact ⟨v, hv, by rw [observeAll, hminf, h]⟩
  · rcases foldl_max_attained l NormState.init.Emax with h | ⟨v, hv, h⟩
    · exfalso
      have hle := (foldl_max_ge l NormState.init.Emax).2 w hw
      rw [h] at hle
      simp [NormState.init] at hle
    · exact ⟨v, hv, by rw [observeAll, hmaxf, h]⟩
  · intro s x
    constructor
    · rw [update_Emin]
      exact min_le_right _ _
    · rw [update_Emax]
      exact le_max_right _ _

/-- Witness for C3 on the observation sequence `[2, 1]`. -/
theorem observe_monotone_minmax_witness :
    (∃ v ∈ ([2, 1] : List ℝ), (observeAll [2, 1]).Emin = (v : EReal))
  ∧ (∃ v ∈ ([2, 1] : List ℝ), (observeAll [2, 1]).Emax = (v : EReal)) :=
  ⟨(observe_monotone_minmax [2, 1] (by simp)).2.1,
   (observe_monotone_minmax [2, 1] (by simp)).2.2.1⟩

lemma advanceGate_spec (global_idx g : ℕ) :
    global_idx < advanceGate global_idx g
  ∧ (∃ k, advanceGate global_idx g = g + GATE_STRIDE * k)
  ∧ (g ≤ global_idx → advanceGate global_idx g ≤ global_idx + GATE_STRIDE)
  ∧ (global_idx < g → advanceGate global_idx g = g) := by
  by_cases h : g ≤ global_idx
  · have e : advanceGate global_idx g
        = advanceGate global_idx (g + GATE_STRIDE) := by
      rw [advanceGate, if_pos h]
    obtain ⟨ih1, ⟨k, ih2⟩, ih3, ih4⟩ :=
      advanceGate_spec global_idx (g + GATE_STRIDE)
    refine ⟨e ▸ ih1, ⟨k + 1, by rw [e, ih2]; ring⟩, fun _ => ?_, fun hg => ?_⟩
    · by_cases h2 : g + GATE_STRIDE ≤ global_idx
      · exact e ▸ ih3 h2
      · rw [e, ih4 (not_le.mp h2)]
        omega
    · omega
  · have e : advanceGate global_idx g = g := by
      rw [advanceGate, if_neg h]
    exact ⟨by rw [e]; exact not_le.mp h, ⟨0, by omega⟩,
      fun hg => absurd hg h, fun _ => e⟩
termination_by global_idx + 1 - g
decreasing_by simp [GATE_STRIDE]; omega

/-- Claim C4: when the global index has reached `next_gate` and a full
window is available, the gate block fires exactly one evaluation and
advances `next_gate` by whole strides to the least such value exceeding
the index; running the gate again at the same index fires nothing, so each
crossing fires exactly once even when the index jumps by more than one
stride; concretely, at stride 256, `next_gate = 256` and an index that
jumped to 600, one evaluation fires and `next_gate` ends at 768. -/
theorem gate_fires_once_per_crossing (global_idx g : ℕ) (h : g ≤ global_idx) :
    gateStep global_idx g true = (1, advanceGate global_idx g)
  ∧ global_idx < advanceGate global_idx g
  ∧ (∃ k, advanceGate global_idx g = g + GATE_STRIDE * k)
  ∧ advanceGate global_idx g ≤ global_idx + GATE_STRIDE
  ∧ gateStep global_idx (advanceGate global_idx g) true
      = (0, advanceGate global_idx g)
  ∧ gateStep global_idx g false = (0, g)
  ∧ gateStep 600 256 true = (1, 768) := by
  obtain ⟨h1, h2, h3, _⟩ := advanceGate_spec global_idx g
  have e1 : advanceGate 600 256 = advanceGate 600 512 := by
    rw [advanceGate]
    norm_num [GATE_STRIDE]
  have e2 : advanceGate 600 512 = advanceGate 600 768 := by
    rw [advanceGate]
    norm_num [GATE_STRIDE]
  have e3 : advanceGate 600 768 = 768 := by
    rw [advanceGate]
    norm_num
  refine ⟨by simp [gateStep, h], h1, h2, h3 h, ?_, ?_, ?_⟩
  · simp [gateStep, not_le.mpr h1]
  · simp [gateStep]
  · simp [gateStep]
    rw [e1, e2, e3]

/-- Witness for C4: the spec's own example, stride 256 with the index
jumping from 200 to 600. -/
theorem gate_fires_once_per_crossing_witness :
    gateStep 600 256 true = (1, 768) :=
  (gate_fires_once_per_crossing 600 256 (by norm_num)).2.2.2.2.2.2

/-- Claim C5: an acquisition tick first advances the next pull instant by
one pull period; if `now` overshoots the advanced instant by more than one
period the instant snaps to `now` instead, and in every case the resulting
instant is at most one period behind `now` whenever a catch-up condition
was reached — no backlog of catch-up pulls can accumulate. -/
theorem pull_drift_correction (now np : ℚ) :
    (now - (np + EEG_PULL_PERIOD_S) > EEG_PULL_PERIOD_S →
        schedulePull now np = now)
  ∧ (now - (np + EEG_PULL_PERIOD_S) ≤ EEG_PULL_PERIOD_S →
        schedulePull now np = np + EEG_PULL_PERIOD_S)
  ∧ now - schedulePull now np ≤ EEG_PULL_PERIOD_S := by
  refine ⟨?_, ?_, ?_⟩
  · intro h
    simp [schedulePull, h]
  · intro h
    simp only [schedulePull]
    rw [if_neg (not_lt.mpr h)]
  · by_cases h : now - (np + EEG_PULL_PERIOD_S) > EEG_PULL_PERIOD_S
    · simp only [schedulePull]
      rw [if_pos h]
      simp [EEG_PULL_PERIOD_S]
    · simp only [schedulePull]
      rw [if_neg h]
      linarith [not_lt.mp h]

/-- Witness for C5: a stalled tick (`now = 3`, `next_pull = 1`) snaps to
`now`; an on-time tick (`now = 0`, `next_pull = 1`) advances by one
period. -/
theorem pull_drift_correction_witness :
    schedulePull 3 1 = 3 ∧ schedulePull 0 1 = 1 + EEG_PULL_PERIOD_S :=
  ⟨(pull_drift_correction 3 1).1 (by norm_num [EEG_PULL_PERIOD_S]),
   (pull_drift_correction 0 1).2.1 (by norm_num [EEG_PULL_PERIOD_S])⟩

lemma takeLast_length {α : Type} (k : ℕ) (l : List α) :
    (takeLast k l).length = min k l.length := by
  simp [takeLast]
  omega

lemma takeLast_of_le {α : Type} (k : ℕ) (l : List α) (h : l.length ≤ k) :
    takeLast k l = l := by
  simp [takeLast, Nat.sub_eq_zero_of_le h]

lemma takeLast_suffix {α : Type} (k : ℕ) (l : List α) :
    (takeLast k l).IsSuffix l :=
  List.drop_suffix _ _

/-- Counterexample to claim C6: with `window_length = 125` and
`sampling_rate = 125` the retention bound is `250`, yet the very first
block of 200 samples — within the bound, so the claim says all of it is
retained — leaves only 125 samples in the buffer. -/
theorem buffer_first_block_counterexample :
    (List.range 200).length ≤ keepBound 125 125
  ∧ (List.range 200) ≠ ([] : List ℕ)
  ∧ (appendBlock 125 125 ([] : List ℕ) (List.range 200)).length = 125
  ∧ appendBlock 125 125 ([] : List ℕ) (List.range 200) ≠ List.range 200 := by
  refine ⟨by simp [keepBound], by simp, ?_, ?_⟩
  · simp [appendBlock, takeLast_length]
  · intro h
    have := congrArg List.length h
    simp [appendBlock, takeLast_length] at this

/-- Claim C6 as amended: on the very first non-empty block the buffer
keeps only the most recent `min window_length n` samples (`X[-win_len:]`),
not up to the retention bound; on every later non-empty append the buffer
is exactly the most recent `min total bound` samples with
`bound = max(2·window_length, window_length + sampling_rate)`, so all
samples are retained there whenever the total is within the bound; in all
cases the buffer is a suffix of the data appended so far. -/
theorem buffer_retention_amended {α : Type} (win_len fs : ℕ)
    (buf X : List α) (hX : X ≠ []) :
    (buf = [] →
        appendBlock win_len fs buf X = takeLast win_len X
      ∧ (appendBlock win_len fs buf X).length = min win_len X.length)
  ∧ (buf ≠ [] →
        appendBlock win_len fs buf X = takeLast (keepBound win_len fs) (buf ++ X)
      ∧ (appendBlock win_len fs buf X).length
          = min (keepBound win_len fs) (buf.length + X.length)
      ∧ (buf.length + X.length ≤ keepBound win_len fs →
          appendBlock win_len fs buf X = buf ++ X))
  ∧ (appendBlock win_len fs buf X).IsSuffix (buf ++ X) := by
  have hXlen : X.length ≠ 0 := by simpa [List.length_eq_zero] using hX
  refine ⟨?_, ?_, ?_⟩
  · intro hbuf
    subst hbuf
    constructor
    · by_cases h : win_len ≤ X.length
      · simp [appendBlock, hXlen, h]
      · simp [appendBlock, hXlen, h,
          takeLast_of_le win_len X (le_of_not_le h)]
    · by_cases h : win_len ≤ X.length
      · simp [appendBlock, hXlen, h, takeLast_length]
      · simp [appendBlock, hXlen, h]
        omega
  · intro hbuf
    have hblen : buf.length ≠ 0 := by simpa [List.length_eq_zero] using hbuf
    refine ⟨by simp [appendBlock, hXlen, hblen], ?_, ?_⟩
    · simp [appendBlock, hXlen, hblen, takeLast_length]
    · intro hle
      simp [appendBlock, hXlen, hblen]
      exact takeLast_of_le _ _ (by simpa using hle)
  · by_cases hbuf : buf = []
    · subst hbuf
      by_cases h : win_len ≤ X.length
      · simpa [appendBlock, hXlen, h] using takeLast_suffix win_len X
      · simp [appendBlock, hXlen, h]
    · have hblen : buf.length ≠ 0 := by simpa [List.length_eq_zero] using hbuf
      simpa [appendBlock, hXlen, hblen] using
        takeLast_suffix (keepBound win_len fs) (buf ++ X)

/-- Witness for C6 (amended): appending `[4]` to the non-empty buffer
`[1, 2, 3]` with `window_length = 2`, `sampling_rate = 3` (bound 5)
retains everything. -/
theorem buffer_retention_amended_witness :
    appendBlock 2 3 [1, 2, 3] ([4] : List ℕ) = [1, 2, 3, 4] :=
  ((buffer_retention_amended 2 3 [1, 2, 3] [4] (by simp)).2.1
    (by simp)).2.2 (by simp [keepBound])

lemma broadcast_foldl :
    ∀ (l : List Client) (st : HubState),
      (l.foldl safeSend st).received
          = st.received ++ (l.filter (fun c => c.sendOk)).map Client.id
    ∧ (l.foldl safeSend st).closed
          = st.closed ++ (l.filter (fun c => !c.sendOk)).map Client.id
    ∧ (l.foldl safeSend st).subs
          = (l.filter (fun c => !c.sendOk)).foldl
              (fun s c => s.erase c) st.subs
  | [], st => ⟨by simp, by simp, by simp⟩
  | c :: t, st => by
    obtain ⟨ih1, ih2, ih3⟩ := broadcast_foldl t (safeSend st c)
    by_cases h : c.sendOk
    · refine ⟨?_, ?_, ?_⟩
      · rw [List.foldl_cons, ih1]
        simp [safeSend, h]
      · rw [List.foldl_cons, ih2]
        simp [safeSend, h]
      · rw [List.foldl_cons, ih3]
        simp [safeSend, h]
    · refine ⟨?_, ?_, ?_⟩
      · rw [List.foldl_cons, ih1]
        simp [safeSend, h]
      · rw [List.foldl_cons, ih2]
        simp [safeSend, h]
      · rw [List.foldl_cons, ih3]
        simp [safeSend, h]

lemma one_failure_filters :
    ∀ (l : List Client) (c : Client), c ∈ l → c.sendOk = false →
      (∀ d ∈ l, d ≠ c → d.sendOk = true) → l.Nodup →
      l.filter (fun c => !c.sendOk) = [c]
    ∧ l.filter (fun c => c.sendOk) = l.erase c
  | [], c, hc, _, _, _ => absurd hc (List.not_mem_nil c)
  | a :: t, c, hc, hfail, hothers, hnodup => by
    by_cases hac : a = c
    · subst hac
      have hnotin : a ∉ t := (List.nodup_cons.mp hnodup).1
      have hall : ∀ d ∈ t, d.sendOk = true := by
        intro d hd
        exact hothers d (List.mem_cons_of_mem a hd)
          (fun hdc => hnotin (hdc ▸ hd))
      constructor
      · rw [List.filter_cons_of_pos (by simp [hfail])]
        rw [List.filter_eq_nil_iff.mpr (by intro d hd; simp [hall d hd])]
      · rw [List.filter_cons_of_neg (by simp [hfail]), List.erase_cons_head]
        exact List.filter_eq_self.mpr (fun d hd => hall d hd)
    · have hct : c ∈ t := by
        rcases List.mem_cons.mp hc with h | h
        · exact absurd h.symm hac
        · exact h
      have haok : a.sendOk = true :=
        hothers a (List.mem_cons_self a t) hac
      obtain ⟨ih1, ih2⟩ := one_failure_filters t c hct hfail
        (fun d hd hdc => hothers d (List.mem_cons_of_mem a hd) hdc)
        (List.nodup_cons.mp hnodup).2
      constructor
      · rw [List.filter_cons_of_neg (by simp [haok]), ih1]
      · rw [List.filter_cons_of_pos (by simp [haok]), ih2,
          List.erase_cons_tail]
        simp [hac]

/-- Claim C7: broadcasting to a subscriber set containing exactly one
client whose send fails delivers the payload to all the other clients,
closes the failing client's connection and removes it from the set, and
the failure never escapes `broadcast` (a total function: the caller always
gets the resulting state, never an exception). -/
theorem broadcast_one_failing_subscriber (st : HubState) (c : Client)
    (hc : c ∈ st.subs) (hfail : c.sendOk = false)
    (hothers : ∀ d ∈ st.subs, d ≠ c → d.sendOk = true)
    (hnodup : st.subs.Nodup) :
    (broadcast st).received
      = st.received ++ (st.subs.erase c).map Client.id
  ∧ (broadcast st).subs = st.subs.erase c
  ∧ (broadcast st).closed = st.closed ++ [c.id] := by
  have hne : st.subs ≠ [] := List.ne_nil_of_mem hc
  obtain ⟨hf1, hf2⟩ := one_failure_filters st.subs c hc hfail hothers hnodup
  obtain ⟨h1, h2, h3⟩ := broadcast_foldl st.subs st
  rw [broadcast, if_neg hne]
  refine ⟨?_, ?_, ?_⟩
  · rw [h1, hf2]
  · rw [h3, hf1]
    simp
  · rw [h2, hf1]
    simp

/-- Witness for C7: three subscribers, of which only client 2 fails. -/
theorem broadcast_one_failing_subscriber_witness :
    (broadcast ⟨[⟨1, true⟩, ⟨2, false⟩, ⟨3, true⟩], [], []⟩).received
        = [] ++ (([⟨1, true⟩, ⟨2, false⟩, ⟨3, true⟩] : List Client).erase
            ⟨2, false⟩).map Client.id
  ∧ (broadcast ⟨[⟨1, true⟩, ⟨2, false⟩, ⟨3, true⟩], [], []⟩).subs
        = ([⟨1, true⟩, ⟨2, false⟩, ⟨3, true⟩] : List Client).erase ⟨2, false⟩
  ∧ (broadcast ⟨[⟨1, true⟩, ⟨2, false⟩, ⟨3, true⟩], [], []⟩).closed
        = [] ++ [(2 : ℕ)] :=
  broadcast_one_failing_subscriber
    ⟨[⟨1, true⟩, ⟨2, false⟩, ⟨3, true⟩], [], []⟩ ⟨2, false⟩
    (by simp) rfl (by decide) (by decide)

/-- Counterexample to claim C8: a text frame that parses to the JSON
value `5` — malformed in the claim's sense, being of no known kind — does
not leave the handler unaffected: `payload.get("type")` raises an
uncaught `AttributeError`, which crashes the handler iteration and drops
the connection; an invalid-UTF-8 binary frame likewise raises an uncaught
`UnicodeDecodeError`.  Neither iteration returns normally. -/
theorem control_malformed_crash :
    handle ⟨"normal", NormState.init⟩ InMsg.jsonNonObject
      = Except.error HandlerErr.attributeError
  ∧ handle ⟨"normal", NormState.init⟩ InMsg.binaryNotUtf8
      = Except.error HandlerErr.unicodeDecodeError :=
  ⟨rfl, rfl⟩

/-- Claim C8 as amended: text that fails JSON parsing with
`JSONDecodeError`, JSON objects of unknown or missing kind, and
`set_mode` messages whose mode value is invalid are silently ignored —
state unchanged, no broadcast, no error, connection kept; but a text
frame parsing to a non-object JSON value raises an uncaught
`AttributeError` and an invalid-UTF-8 binary frame an uncaught
`UnicodeDecodeError`, each of which crashes the handler and drops the
connection. -/
theorem control_malformed_amended (st : Shared) (p : Payload) :
    handle st InMsg.textNotJson = Except.ok (st, [])
  ∧ (p.type ≠ some "subscribe" → p.type ≠ some "set_mode" →
      p.type ≠ some "reset_norm" →
      handle st (InMsg.jsonObject p) = Except.ok (st, []))
  ∧ (p.type = some "set_mode" →
      (∀ md, p.mode = some md → md ∉ MODES) →
      handle st (InMsg.jsonObject p) = Except.ok (st, []))
  ∧ handle st InMsg.jsonNonObject = Except.error HandlerErr.attributeError
  ∧ handle st InMsg.binaryNotUtf8
      = Except.error HandlerErr.unicodeDecodeError := by
  refine ⟨rfl, ?_, ?_, rfl, rfl⟩
  · intro h1 h2 h3
    simp [handle, h1, h2, h3]
  · intro h1 h2
    cases hm : p.mode with
    | none => simp [handle, h1, hm]
    | some md => simp [handle, h1, hm, h2 md hm]

/-- Witness for C8 (amended): an unknown kind `"bogus"` and an invalid
`set_mode` value `"zen"`, each against the initial shared state. -/
theorem control_malformed_amended_witness :
    handle ⟨"normal", NormState.init⟩
        (InMsg.jsonObject ⟨some "bogus", none⟩)
      = Except.ok (⟨"normal", NormState.init⟩, [])
  ∧ handle ⟨"normal", NormState.init⟩
        (InMsg.jsonObject ⟨some "set_mode", some "zen"⟩)
      = Except.ok (⟨"normal", NormState.init⟩, []) :=
  ⟨(control_malformed_amended ⟨"normal", NormState.init⟩
      ⟨some "bogus", none⟩).2.1 (by simp) (by simp) (by simp),
   (control_malformed_amended ⟨"normal", NormState.init⟩
      ⟨some "set_mode", some "zen"⟩).2.2.1 rfl
      (by
        intro md hmd
        injection hmd with h
        subst h
        decide)⟩

/-- Counterexample to claim C9: in `run_engagement` a failing
`save_norm_state` call is not caught (only `KeyboardInterrupt` is), so the
very first computed `E` — which always updates the uninitialized bounds —
aborts the iteration instead of letting the pipeline continue: the step
returns an error. -/
theorem save_failure_aborts :
    stepNorm ⊤ ⊥ 0 false = Except.error () := by
  have h : ((0 : ℝ) : EReal) < ⊤ := EReal.coe_lt_top 0
  simp [stepNorm, h]

/-- Claim C9 as amended: every failing load yields the uninitialized state
`(+∞, -∞)` exactly as if no prior state existed, and loads of partial
data default the missing bounds the same way; but a failing save is not
caught: when a bound changed and the save fails the pipeline step
propagates the error (terminating the loop), while it continues normally
whenever the save succeeds or no bound changed. -/
theorem persistence_failures_amended (Emin Emax : EReal) (E : ℝ) :
    load_norm_state none = (⊤, ⊥)
  ∧ load_norm_state (some (none, none)) = (⊤, ⊥)
  ∧ (∃ p, stepNorm Emin Emax E true = Except.ok p)
  ∧ (¬((E : EReal) < Emin ∨ (E : EReal) > Emax) →
      ∀ saveOk : Bool, ∃ p, stepNorm Emin Emax E saveOk = Except.ok p)
  ∧ (((E : EReal) < Emin ∨ (E : EReal) > Emax) →
      stepNorm Emin Emax E false = Except.error ()) := by
  refine ⟨rfl, rfl, ?_, ?_, ?_⟩
  · refine ⟨(if (E : EReal) < Emin then (E : EReal) else Emin,
      if (E : EReal) > Emax then (E : EReal) else Emax), ?_⟩
    by_cases h : (E : EReal) < Emin ∨ (E : EReal) > Emax
    · simp [stepNorm, h]
    · simp [stepNorm, h]
  · intro h saveOk
    refine ⟨(if (E : EReal) < Emin then (E : EReal) else Emin,
      if (E : EReal) > Emax then (E : EReal) else Emax), ?_⟩
    simp [stepNorm, h]
  · intro h
    simp [stepNorm, h]

/-- Witness for C9 (amended): the uninitialized bounds with `E = 0` and a
successful save. -/
theorem persistence_failures_amended_witness :
    load_norm_state none = (⊤, ⊥)
  ∧ (∃ p, stepNorm ⊤ ⊥ 0 true = Except.ok p) :=
  ⟨(persistence_failures_amended ⊤ ⊥ 0).1,
   (persistence_failures_amended ⊤ ⊥ 0).2.2.1⟩

/-- Claim C10: on every state whose bounds satisfy the bridge invariant
(`Emin ≠ -∞`, `Emax ≠ +∞` — the initial state satisfies it and `update`
and `reset` preserve it), observing a finite `E` just before the
engagement message is built makes both serialized bounds finite numbers,
never `null`; `null` bounds arise only from the reset state, as in the
calibration message sent after `reset_norm`. -/
theorem engagement_bounds_finite (s : NormState) (E : ℝ)
    (hmin : s.Emin ≠ ⊥) (hmax : s.Emax ≠ ⊤) :
    (∃ a : ℝ, finite_or_none (s.update E).Emin = some a)
  ∧ (∃ b : ℝ, finite_or_none (s.update E).Emax = some b)
  ∧ ((s.update E).Emin ≠ ⊥ ∧ (s.update E).Emax ≠ ⊤)
  ∧ (NormState.init.Emin ≠ ⊥ ∧ NormState.init.Emax ≠ ⊤)
  ∧ (∀ t : NormState, (t.reset).Emin ≠ ⊥ ∧ (t.reset).Emax ≠ ⊤)
  ∧ (∀ t : NormState, finite_or_none (t.reset).Emin = none
      ∧ finite_or_none (t.reset).Emax = none) := by
  have hminTop : (s.update E).Emin ≠ ⊤ := by
    by_cases h : (E : EReal) < s.Emin
    · simp [NormState.update, h]
    · simp [NormState.update, h]
      intro he
      rw [he] at h
      exact h (EReal.coe_lt_top E)
  have hminBot : (s.update E).Emin ≠ ⊥ := by
    by_cases h : (E : EReal) < s.Emin
    · simp [NormState.update, h]
    · simp [NormState.update, h]
      exact hmin
  have hmaxTop : (s.update E).Emax ≠ ⊤ := by
    by_cases h : (E : EReal) > s.Emax
    · simp [NormState.update, h]
    · simp [NormState.update, h]
      exact hmax
  have hmaxBot : (s.update E).Emax ≠ ⊥ := by
    by_cases h : (E : EReal) > s.Emax
    · simp [NormState.update, h]
    · simp [NormState.update, h]
      intro he
      rw [he] at h
      exact h (EReal.bot_lt_coe E)
  refine ⟨?_, ?_, ⟨hminBot, hmaxTop⟩, ?_, ?_, ?_⟩
  · exact ⟨(s.update E).Emin.toReal,
      by simp [finite_or_none, hminTop, hminBot]⟩
  · exact ⟨(s.update E).Emax.toReal,
      by simp [finite_or_none, hmaxTop, hmaxBot]⟩
  · simp [NormState.init]
  · intro t
    simp [NormState.reset]
  · intro t
    constructor
    · simp [finite_or_none, NormState.reset]
    · simp [finite_or_none, NormState.reset]

/-- Witness for C10: the first observation `E = 0` from the initial
state. -/
theorem engagement_bounds_finite_witness :
    ∃ a : ℝ, finite_or_none (NormState.init.update 0).Emin = some a :=
  (engagement_bounds_finite NormState.init 0
    (by simp [NormState.init]) (by simp [NormState.init])).1

lemma trapz_short : ∀ l : List (ℝ × ℝ), l.length ≤ 1 → trapz l = 0
  | [], _ => rfl
  | [_], _ => rfl
  | _ :: _ :: _, h => by simp at h

lemma foldl_add_eq_sum {α : Type} (f : α → ℝ) :
    ∀ (l : List α) (a : ℝ),
      l.foldl (fun acc s => acc + f s) a = a + (l.map f).sum
  | [], a => by simp
  | x :: t, a => by
    rw [List.foldl_cons, foldl_add_eq_sum f t]
    simp [add_assoc]

lemma bandPowerSpec_nil (sig : List ℝ) (fs lo hi : ℝ)
    (hn : sig.length = 0) : bandPowerSpec sig fs lo hi = 0 := by
  simp only [bandPowerSpec, hn]
  apply trapz_short
  rw [List.length_map]
  exact le_trans (List.length_filter_le _ _) (by simp)

lemma bandpower_eq_spec (sig : List ℝ) (fs lo hi : ℝ) :
    bandpower_hann_rfft sig fs lo hi = bandPowerSpec sig fs lo hi := by
  by_cases hn : sig.length = 0
  · rw [bandPowerSpec_nil sig fs lo hi hn]
    simp [bandpower_hann_rfft, hn]
  · simp only [bandpower_hann_rfft, bandPowerSpec]
    rw [if_neg hn]
    by_cases hm : (List.range (sig.length / 2 + 1)).filter
        (fun k => decide (lo ≤ rfreq sig.length fs k
          ∧ rfreq sig.length fs k < hi)) = []
    · rw [if_pos hm, hm]
      simp [trapz]
    · rw [if_neg hm]

lemma engagement_eq_spec (win : List (List ℝ)) (fs : ℝ) :
    engagement_from_window win fs = SpectralEngineCompute win fs := by
  by_cases h : (win.map List.length).sum = 0
  · simp [engagement_from_window, SpectralEngineCompute, h]
  · simp only [engagement_from_window, SpectralEngineCompute]
    rw [if_neg h, if_neg h]
    rw [foldl_add_eq_sum, foldl_add_eq_sum, foldl_add_eq_sum]
    simp only [zero_add]
    have e1 : (fun sig => bandpower_hann_rfft sig fs 4 7)
        = fun sig => bandPowerSpec sig fs 4 7 :=
      funext fun sig => bandpower_eq_spec sig fs 4 7
    have e2 : (fun sig => bandpower_hann_rfft sig fs 7 11)
        = fun sig => bandPowerSpec sig fs 7 11 :=
      funext fun sig => bandpower_eq_spec sig fs 7 11
    have e3 : (fun sig => bandpower_hann_rfft sig fs 11 20)
        = fun sig => bandPowerSpec sig fs 11 20 :=
      funext fun sig => bandpower_eq_spec sig fs 11 20
    rw [e1, e2, e3]

lemma engagement_shape (win : List (List ℝ)) (fs : ℝ) :
    ∃ a t b : ℝ, engagement_from_window win fs
      = ((if a + t > 1 / 10 ^ 12 then b / (a + t) else 0), a, t, b) := by
  by_cases h : (win.map List.length).sum = 0
  · refine ⟨0, 0, 0, ?_⟩
    simp [engagement_from_window, h]
  · refine
      ⟨(win.foldl (fun acc sig => acc + bandpower_hann_rfft sig fs 7 11) 0)
          / win.length,
       (win.foldl (fun acc sig => acc + bandpower_hann_rfft sig fs 4 7) 0)
          / win.length,
       (win.foldl (fun acc sig => acc + bandpower_hann_rfft sig fs 11 20) 0)
          / win.length, ?_⟩
    simp only [engagement_from_window]
    rw [if_neg h]

/-- Claim C1: the source computation agrees with the spec's algorithm —
per channel remove the mean, apply a Hann window, take a real FFT, form
the PSD as `|spectrum|²/(Σwindow²·fs)`, integrate by the trapezoidal rule
over the bins in `[lo, hi)` for theta 4–7 Hz, alpha 7–11 Hz and
beta 11–20 Hz, average each band over the channels, and return
`E = beta/(alpha+theta)` when the denominator exceeds `1e-12`, else `0`;
an empty window yields all-zero outputs and a band containing no frequency
bins yields zero power, and every case is total (no exception). -/
theorem spectral_engine_meets_spec (win : List (List ℝ)) (fs : ℝ) :
    engagement_from_window win fs = SpectralEngineCompute win fs
  ∧ engagement_from_window [] fs = (0, 0, 0, 0)
  ∧ (∀ (sig : List ℝ) (lo hi : ℝ),
      (List.range (sig.length / 2 + 1)).filter
          (fun k => decide (lo ≤ rfreq sig.length fs k
            ∧ rfreq sig.length fs k < hi)) = [] →
      bandpower_hann_rfft sig fs lo hi = 0)
  ∧ ((engagement_from_window win fs).2.1
        + (engagement_from_window win fs).2.2.1 ≤ 1 / 10 ^ 12 →
      (engagement_from_window win fs).1 = 0)
  ∧ (1 / 10 ^ 12 < (engagement_from_window win fs).2.1
        + (engagement_from_window win fs).2.2.1 →
      (engagement_from_window win fs).1
        = (engagement_from_window win fs).2.2.2 /
            ((engagement_from_window win fs).2.1
              + (engagement_from_window win fs).2.2.1)) := by
  obtain ⟨a, t, b, he⟩ := engagement_shape win fs
  refine ⟨engagement_eq_spec win fs, by simp [engagement_from_window],
    ?_, ?_, ?_⟩
  · intro sig lo hi hmask
    by_cases hn : sig.length = 0
    · simp [bandpower_hann_rfft, hn]
    · simp only [bandpower_hann_rfft]
      rw [if_neg hn, if_pos hmask]
  · rw [he]
    intro hle
    simp only
    rw [if_neg (not_lt.mpr hle)]
  · rw [he]
    intro hlt
    simp only
    rw [if_pos hlt]

/-- Witness for C1: a one-sample signal resolves no bin of the theta band,
so its band power is zero. -/
theorem spectral_engine_meets_spec_witness :
    bandpower_hann_rfft [1] 125 4 7 = 0 :=
  (spectral_engine_meets_spec [] 125).2.2.1 [1] 4 7 (by
    have h1 : (List.range ((([1] : List ℝ).length) / 2 + 1)) = [0] := by
      rfl
    rw [h1]
    simp [List.filter_cons, rfreq])
